import Mathlib

/-!
Verification development for the agent execution core of the
aaiaas-ultimate-platform repository.

The definitions below are a shallow embedding of
src/apps/api-ai/services/agent_service.py (classes Tool, AgentMemory,
Agent and the method Agent.think) and of
src/apps/api-ai/services/rag_service.py (method RAGService.chunk_text).

Modelling conventions:
- The OpenAI client call (self.client.chat.completions.create) is the
  external model-invocation adapter.  It is embedded as a function from
  the working message sequence to either an exception message
  (Except.error, a raised provider/transport error) or a response
  carrying choices[0] and the usage record.  This is the only failure
  point of the try-block in the embedding; JSON (de)serialization of
  tool arguments and results is abstracted away, tool arguments travel
  as an opaque string.
- Python wall-clock timestamps on memory entries and the metadata side
  store are omitted: no claim mentions them.
- The while-loop of Agent.think runs for at most max_iterations
  iterations; it is embedded with fuel equal to the number of loop
  iterations still allowed, so fuel plus the current iteration counter
  is always max_iterations.
- Python list slicing lst[-n:] is embedded by pySliceLast, including
  the n = 0 corner where lst[-0:] is lst[0:], i.e. the whole list.
-/

/-- One entry of the persistent conversation memory
(AgentMemory.messages): a role-tagged message.  The content is optional
because Agent.think stores message.content, which may be None. -/
structure MemMessage where
  role : String
  content : Option String
deriving DecidableEq, Repr

/-- Python slicing l[-n:] on a list.  For n = 0 Python reads l[-0:] as
l[0:], returning the whole list; for n ≥ 1 it returns the last n
elements (or all of them when n exceeds the length). -/
def pySliceLast {α : Type} (l : List α) (n : Nat) : List α :=
  if n = 0 then l else l.drop (l.length - n)

/-- The AgentMemory class: a bounded list of messages with a configured
maximum entry count. -/
structure AgentMemory where
  messages : List MemMessage
  max_messages : Nat
deriving DecidableEq, Repr

/-- AgentMemory.add_message: append the message, then trim with
self.messages = self.messages[-self.max_messages:] whenever the length
exceeds max_messages. -/
def AgentMemory.add_message (m : AgentMemory) (role : String) (content : Option String) :
    AgentMemory :=
  let msgs := m.messages ++ [⟨role, content⟩]
  if msgs.length > m.max_messages then
    { m with messages := pySliceLast msgs m.max_messages }
  else
    { m with messages := msgs }

/-- AgentMemory.get_messages with no last_n argument: the full log. -/
def AgentMemory.get_messages (m : AgentMemory) : List MemMessage :=
  m.messages

/-- Result of one tool invocation as seen by the loop: either the
value the capability returned, or the structured error dictionary
produced from a caught exception or a missing registry entry. -/
inductive ToolVal where
  | ok (v : String)
  | err (msg : String)
deriving DecidableEq, Repr

/-- The Tool class.  The executable capability is embedded as a
function from the (opaque) argument payload to either a raised
exception message (Except.error) or a returned value. -/
structure Tool where
  name : String
  description : String
  parameters : String
  function : String → Except String ToolVal

/-- Tool.execute: run the capability and catch any exception, turning
it into the structured dictionary with an error field. -/
def Tool.execute (t : Tool) (args : String) : ToolVal :=
  match t.function args with
  | Except.ok v => v
  | Except.error e => ToolVal.err e

/-- The tool registry self.tool_registry built by dict comprehension
from the tool list: a later tool with the same name replaces an
earlier one, so lookup finds the last matching tool. -/
def toolLookup (tools : List Tool) (name : String) : Option Tool :=
  tools.reverse.find? (fun t => t.name = name)

/-- Dispatch of one requested call inside Agent.think: registry hit
runs Tool.execute, a miss yields the structured tool-not-found error. -/
def invokeTool (tools : List Tool) (name : String) (args : String) : ToolVal :=
  match toolLookup tools name with
  | some t => t.execute args
  | none => ToolVal.err ("Tool " ++ name ++ " not found")

/-- One tool call requested by the model (tool_call.id,
tool_call.function.name, tool_call.function.arguments). -/
structure ToolCallReq where
  id : String
  name : String
  arguments : String
deriving DecidableEq, Repr

/-- choices[0].message of the adapter response: the final text (may be
None) and the list of requested tool calls (empty list plays the role
of a falsy/absent tool_calls field). -/
structure ModelMessage where
  content : Option String
  tool_calls : List ToolCallReq
deriving DecidableEq, Repr

/-- choices[0] of the adapter response. -/
structure ModelChoice where
  finish_reason : String
  message : ModelMessage
deriving DecidableEq, Repr

/-- response.usage token accounting. -/
structure Usage where
  prompt_tokens : Nat
  completion_tokens : Nat
  total_tokens : Nat
deriving DecidableEq, Repr

/-- A successful adapter response: choices[0] plus usage. -/
structure ModelResponse where
  choice : ModelChoice
  usage : Usage
deriving DecidableEq, Repr

/-- One entry of the per-run working message sequence (the local
variable messages of Agent.think): an ordinary role/content dict, the
assistant placeholder dict carrying one requested tool call, or the
tool-role dict feeding a tool result back to the model. -/
inductive WorkMsg where
  | chat (role : String) (content : Option String)
  | assistantToolCall (tc : ToolCallReq)
  | toolMsg (tool_call_id : String) (content : ToolVal)
deriving DecidableEq, Repr

/-- One entry of the execution trace.  The constructor llm_call keeps
the source's type tag "llm_call"; the specification calls the same
entry kind model_call. -/
inductive TraceEntry where
  | llm_call (iteration : Nat) (finish_reason : String)
  | tool_call (iteration : Nat) (tool : String) (arguments : String)
  | tool_result (iteration : Nat) (tool : String) (result : ToolVal)
  | error (iteration : Nat) (err : String)
deriving DecidableEq, Repr

/-- The dictionary Agent.think returns.  The final-answer return has a
usage field and no error field; the post-loop return has an error
field "max_iterations_reached" and no usage field. -/
structure RunResult where
  answer : Option String
  iterations : Nat
  execution_trace : List TraceEntry
  error : Option String
  usage : Option Usage
deriving DecidableEq, Repr

/-- Terminal state of the specification's run state machine, read off
from which return path of Agent.think produced the result. -/
inductive Outcome where
  | DONE
  | EXHAUSTED
  | FAILED
deriving DecidableEq, Repr

/-- The literal apology answer of the post-loop return. -/
def agentApology : String :=
  "I apologize, but I couldn't complete the task within the iteration limit."

/-- The model invocation adapter: from the working message sequence to
a raised exception message or a response. -/
def Adapter : Type := List WorkMsg → Except String ModelResponse

/-- The for-loop over message.tool_calls inside Agent.think: for each
requested call, append the tool_call trace entry, invoke the registry,
append the tool_result trace entry, and feed the exchange back into
the working message sequence. -/
def dispatchCalls (tools : List Tool) (iteration : Nat) :
    List ToolCallReq → List WorkMsg → List TraceEntry → List WorkMsg × List TraceEntry
  | [], messages, trace => (messages, trace)
  | tc :: rest, messages, trace =>
      let result := invokeTool tools tc.name tc.arguments
      dispatchCalls tools iteration rest
        (messages ++ [WorkMsg.assistantToolCall tc, WorkMsg.toolMsg tc.id result])
        (trace ++ [TraceEntry.tool_call iteration tc.name tc.arguments,
                   TraceEntry.tool_result iteration tc.name result])

/-- The while-loop of Agent.think.  fuel is the number of iterations
the guard still allows (max_iterations minus the iterations already
run); iteration is the Python iteration counter before the increment
at the top of the body.  Returns the terminal state, the result
dictionary and the persistent memory after the run. -/
def thinkLoop (tools : List Tool) (adapter : Adapter) :
    Nat → Nat → List WorkMsg → List TraceEntry → AgentMemory →
    Outcome × RunResult × AgentMemory
  | 0, iteration, _messages, trace, memory =>
      (Outcome.EXHAUSTED,
       { answer := some agentApology
         iterations := iteration
         execution_trace := trace
         error := some "max_iterations_reached"
         usage := none }, memory)
  | fuel + 1, iteration, messages, trace, memory =>
      let i := iteration + 1
      match adapter messages with
      | Except.error e =>
          (Outcome.FAILED,
           { answer := some agentApology
             iterations := i
             execution_trace := trace ++ [TraceEntry.error i e]
             error := some "max_iterations_reached"
             usage := none }, memory)
      | Except.ok resp =>
          let choice := resp.choice
          let msg := choice.message
          let trace' := trace ++ [TraceEntry.llm_call i choice.finish_reason]
          if choice.finish_reason = "tool_calls" ∧ msg.tool_calls ≠ [] then
            let step := dispatchCalls tools i msg.tool_calls messages trace'
            thinkLoop tools adapter fuel i step.1 step.2 memory
          else
            (Outcome.DONE,
             { answer := msg.content
               iterations := i
               execution_trace := trace'
               error := none
               usage := some resp.usage },
             memory.add_message "assistant" msg.content)

/-- The Agent class (fields the loop reads; model name and temperature
are sampling parameters consumed opaquely by the adapter). -/
structure Agent where
  name : String
  system_prompt : String
  tools : List Tool
  max_iterations : Nat
  memory : AgentMemory

/-- The working message sequence built at the top of Agent.think: the
system prompt followed by the replay of memory (after the user input
has been appended to it). -/
def Agent.initMessages (ag : Agent) (user_input : String) : List WorkMsg :=
  WorkMsg.chat "system" (some ag.system_prompt) ::
    ((ag.memory.add_message "user" (some user_input)).get_messages.map
      (fun m => WorkMsg.chat m.role m.content))

/-- Agent.think: append the user input to persistent memory, build the
working message sequence, and run the bounded loop. -/
def Agent.think (ag : Agent) (adapter : Adapter) (user_input : String) :
    Outcome × RunResult × AgentMemory :=
  thinkLoop ag.tools adapter ag.max_iterations 0
    (ag.initMessages user_input) []
    (ag.memory.add_message "user" (some user_input))

/-- Normalization of one Python slice index for a sequence of length
n: a negative index counts from the end (clamped below at 0), a
non-negative one is clamped above at n. -/
def pyNormIdx (n : Nat) (i : Int) : Nat :=
  if i < 0 then ((n : Int) + i).toNat else min i.toNat n

/-- Python slicing text[a:b] on a character list. -/
def pySlice (l : List Char) (a b : Int) : List Char :=
  (l.take (pyNormIdx l.length b)).drop (pyNormIdx l.length a)

/-- The while-loop of RAGService.chunk_text, with fuel bounding how
many more loop iterations may run: take text[start:start+chunk_size],
append it, and move start to end - overlap.  The start index is an
integer because end - overlap goes negative when overlap is large. -/
def chunkLoop (text : List Char) (chunk_size overlap : Nat) :
    Nat → Int → List (List Char) → Option (List (List Char))
  | fuel, start, chunks =>
      if start < (text.length : Int) then
        match fuel with
        | 0 => none
        | fuel' + 1 =>
            chunkLoop text chunk_size overlap fuel'
              (start + (chunk_size : Int) - (overlap : Int))
              (chunks ++ [pySlice text start (start + (chunk_size : Int))])
      else
        some chunks

/-- RAGService.chunk_text run with the given amount of fuel, starting
from start = 0 and an empty chunk list. -/
def chunk_text (text : List Char) (chunk_size overlap : Nat) (fuel : Nat) :
    Option (List (List Char)) :=
  chunkLoop text chunk_size overlap fuel 0 []

/-!
Concrete fixtures used by the scenario theorems and witnesses below:
a calculator tool (the Python implementation evaluates the expression
with eval; here the capability is a concrete function answering the
one expression the scenario uses), an agent holding it, and adapters
realizing the scenarios of the specification.
-/

/-- A calculator tool: answers the expression 2+2 and raises on any
other input. -/
def calcTool : Tool :=
  { name := "calculate", description := "Perform mathematical calculations"
    parameters := "expression"
    function := fun args => if args = "2+2" then Except.ok (ToolVal.ok "4")
                            else Except.error "unsupported expression" }

/-- An agent with the calculator tool, an empty memory with the
default bound 50, and the default iteration budget 10. -/
def calcAgent : Agent :=
  { name := "General Assistant"
    system_prompt := "You are a helpful AI assistant."
    tools := [calcTool]
    max_iterations := 10
    memory := { messages := [], max_messages := 50 } }

/-- A response payload requesting the single call
calculate(expression = 2+2). -/
def toolCallPayload : ModelResponse :=
  { choice := { finish_reason := "tool_calls"
                message := { content := none
                             tool_calls := [{ id := "call_1", name := "calculate",
                                              arguments := "2+2" }] } }
    usage := { prompt_tokens := 1, completion_tokens := 1, total_tokens := 2 } }

/-- A response payload carrying the final answer 4. -/
def finalAnsPayload : ModelResponse :=
  { choice := { finish_reason := "stop"
                message := { content := some "4", tool_calls := [] } }
    usage := { prompt_tokens := 1, completion_tokens := 1, total_tokens := 2 } }

/-- An adapter response requesting the single call
calculate(expression = 2+2). -/
def toolCallResp : Except String ModelResponse :=
  Except.ok toolCallPayload

/-- An adapter response carrying the final answer 4. -/
def finalAnsResp : Except String ModelResponse :=
  Except.ok finalAnsPayload

/-- Scenario B adapter: the initial working sequence of calcAgent has
two entries (system prompt and the user task), so it requests the
calculation on the first call and answers on the second. -/
def adapterScenarioB : Adapter := fun msgs =>
  if msgs.length = 2 then toolCallResp else finalAnsResp

/-- Scenario C adapter: always requests a tool call. -/
def adapterAlwaysTool : Adapter := fun _ => toolCallResp

/-- An adapter whose invocation raises a provider error. -/
def adapterFailing : Adapter := fun _ => Except.error "boom"

/-!
Lemma layer: invariants of the loop, proved by induction on the
remaining fuel.
-/

/-- Bounds on the iteration counter a run of the loop reports: it
never drops below the starting counter, never exceeds the starting
counter plus the remaining fuel, and advances at least once whenever
any fuel is left. -/
theorem thinkLoop_iter_bounds (tools : List Tool) (adapter : Adapter) :
    ∀ (fuel iteration : Nat) (msgs : List WorkMsg) (tr : List TraceEntry) (mem : AgentMemory),
      iteration ≤ (thinkLoop tools adapter fuel iteration msgs tr mem).2.1.iterations ∧
      (thinkLoop tools adapter fuel iteration msgs tr mem).2.1.iterations ≤ iteration + fuel ∧
      (1 ≤ fuel → iteration + 1 ≤ (thinkLoop tools adapter fuel iteration msgs tr mem).2.1.iterations) := by
  intro fuel
  induction fuel with
  | zero =>
      intro it msgs tr mem
      simp [thinkLoop]
  | succ fuel ih =>
      intro it msgs tr mem
      rcases hA : adapter msgs with e | resp
      · simp [thinkLoop, hA]
      · simp only [thinkLoop, hA]
        by_cases hc : resp.choice.finish_reason = "tool_calls" ∧
            resp.choice.message.tool_calls ≠ []
        · rw [if_pos hc]
          have h := ih (it + 1)
            (dispatchCalls tools (it + 1) resp.choice.message.tool_calls msgs
              (tr ++ [TraceEntry.llm_call (it + 1) resp.choice.finish_reason])).1
            (dispatchCalls tools (it + 1) resp.choice.message.tool_calls msgs
              (tr ++ [TraceEntry.llm_call (it + 1) resp.choice.finish_reason])).2 mem
          constructor
          · omega
          constructor
          · omega
          · intro _; omega
        · rw [if_neg hc]
          simp

/-- Memory frame of the loop: the only write the loop itself performs
on persistent memory is the assistant append of the final-answer
return path; the budget-exhausted and failure paths leave the memory
it received untouched. -/
theorem thinkLoop_memory (tools : List Tool) (adapter : Adapter) :
    ∀ (fuel iteration : Nat) (msgs : List WorkMsg) (tr : List TraceEntry) (mem : AgentMemory),
      ((thinkLoop tools adapter fuel iteration msgs tr mem).1 = Outcome.DONE →
        (thinkLoop tools adapter fuel iteration msgs tr mem).2.2 =
          mem.add_message "assistant"
            (thinkLoop tools adapter fuel iteration msgs tr mem).2.1.answer) ∧
      ((thinkLoop tools adapter fuel iteration msgs tr mem).1 ≠ Outcome.DONE →
        (thinkLoop tools adapter fuel iteration msgs tr mem).2.2 = mem) := by
  intro fuel
  induction fuel with
  | zero =>
      intro it msgs tr mem
      simp [thinkLoop]
  | succ fuel ih =>
      intro it msgs tr mem
      rcases hA : adapter msgs with e | resp
      · simp [thinkLoop, hA]
      · simp only [thinkLoop, hA]
        by_cases hc : resp.choice.finish_reason = "tool_calls" ∧
            resp.choice.message.tool_calls ≠ []
        · rw [if_pos hc]
          exact ih (it + 1) _ _ mem
        · rw [if_neg hc]
          simp

/-- Shape of the result on the budget-exhausted path: the error
marker, the apology answer, the absent usage record, and an iteration
count equal to the starting counter plus the whole remaining fuel. -/
theorem thinkLoop_exhausted (tools : List Tool) (adapter : Adapter) :
    ∀ (fuel iteration : Nat) (msgs : List WorkMsg) (tr : List TraceEntry) (mem : AgentMemory),
      (thinkLoop tools adapter fuel iteration msgs tr mem).1 = Outcome.EXHAUSTED →
      (thinkLoop tools adapter fuel iteration msgs tr mem).2.1.error =
          some "max_iterations_reached" ∧
      (thinkLoop tools adapter fuel iteration msgs tr mem).2.1.answer = some agentApology ∧
      (thinkLoop tools adapter fuel iteration msgs tr mem).2.1.iterations = iteration + fuel ∧
      (thinkLoop tools adapter fuel iteration msgs tr mem).2.1.usage = none := by
  intro fuel
  induction fuel with
  | zero =>
      intro it msgs tr mem _
      simp [thinkLoop]
  | succ fuel ih =>
      intro it msgs tr mem h
      rcases hA : adapter msgs with e | resp
      · simp only [thinkLoop, hA] at h
        simp at h
      · simp only [thinkLoop, hA] at h ⊢
        by_cases hc : resp.choice.finish_reason = "tool_calls" ∧
            resp.choice.message.tool_calls ≠ []
        · rw [if_pos hc] at h ⊢
          have := ih (it + 1) _ _ mem h
          refine ⟨this.1, this.2.1, ?_, this.2.2.2⟩
          omega
        · rw [if_neg hc] at h
          simp at h

/-- The failure terminal state arises only from a raised adapter
invocation: a run that ends FAILED exhibits a message sequence on
which the adapter raised. -/
theorem thinkLoop_failed (tools : List Tool) (adapter : Adapter) :
    ∀ (fuel iteration : Nat) (msgs : List WorkMsg) (tr : List TraceEntry) (mem : AgentMemory),
      (thinkLoop tools adapter fuel iteration msgs tr mem).1 = Outcome.FAILED →
      ∃ m e, adapter m = Except.error e := by
  intro fuel
  induction fuel with
  | zero =>
      intro it msgs tr mem h
      simp [thinkLoop] at h
  | succ fuel ih =>
      intro it msgs tr mem h
      rcases hA : adapter msgs with e | resp
      · exact ⟨msgs, e, hA⟩
      · simp only [thinkLoop, hA] at h
        by_cases hc : resp.choice.finish_reason = "tool_calls" ∧
            resp.choice.message.tool_calls ≠ []
        · rw [if_pos hc] at h
          exact ih (it + 1) _ _ mem h
        · rw [if_neg hc] at h
          simp at h

/-- Traces the loop can build: a sequence of blocks, each block being
one model-call entry, one adjacent tool-call/tool-result pair, or one
error entry. -/
inductive TraceBlocks : List TraceEntry → Prop where
  | nil : TraceBlocks []
  | llm (tr : List TraceEntry) (i : Nat) (fr : String) :
      TraceBlocks tr → TraceBlocks (tr ++ [TraceEntry.llm_call i fr])
  | pair (tr : List TraceEntry) (i : Nat) (n a : String) (r : ToolVal) :
      TraceBlocks tr → TraceBlocks (tr ++ [TraceEntry.tool_call i n a,
                                           TraceEntry.tool_result i n r])
  | err (tr : List TraceEntry) (i : Nat) (e : String) :
      TraceBlocks tr → TraceBlocks (tr ++ [TraceEntry.error i e])

/-- Tool dispatch appends tool-call/tool-result pairs, block by
block. -/
theorem dispatchCalls_blocks (tools : List Tool) (i : Nat) :
    ∀ (calls : List ToolCallReq) (msgs : List WorkMsg) (tr : List TraceEntry),
      TraceBlocks tr → TraceBlocks (dispatchCalls tools i calls msgs tr).2 := by
  intro calls
  induction calls with
  | nil =>
      intro msgs tr h
      simpa [dispatchCalls] using h
  | cons tc rest ih =>
      intro msgs tr h
      simp only [dispatchCalls]
      exact ih _ _ (TraceBlocks.pair tr i tc.name tc.arguments _ h)

/-- Every trace the loop returns extends a block-structured
accumulator by whole blocks. -/
theorem thinkLoop_blocks (tools : List Tool) (adapter : Adapter) :
    ∀ (fuel iteration : Nat) (msgs : List WorkMsg) (tr : List TraceEntry) (mem : AgentMemory),
      TraceBlocks tr →
      TraceBlocks (thinkLoop tools adapter fuel iteration msgs tr mem).2.1.execution_trace := by
  intro fuel
  induction fuel with
  | zero =>
      intro it msgs tr mem h
      simpa [thinkLoop] using h
  | succ fuel ih =>
      intro it msgs tr mem h
      rcases hA : adapter msgs with e | resp
      · simp only [thinkLoop, hA]
        exact TraceBlocks.err tr (it + 1) e h
      · simp only [thinkLoop, hA]
        by_cases hc : resp.choice.finish_reason = "tool_calls" ∧
            resp.choice.message.tool_calls ≠ []
        · rw [if_pos hc]
          exact ih (it + 1) _ _ mem
            (dispatchCalls_blocks tools (it + 1) _ msgs _
              (TraceBlocks.llm tr (it + 1) resp.choice.finish_reason h))
        · rw [if_neg hc]
          exact TraceBlocks.llm tr (it + 1) resp.choice.finish_reason h

/-- In a block-structured trace every tool_call entry is immediately
followed by a tool_result entry of the same iteration and tool. -/
theorem blocks_pair_fwd :
    ∀ (tr : List TraceEntry), TraceBlocks tr →
      ∀ (k i : Nat) (n a : String),
        tr[k]? = some (TraceEntry.tool_call i n a) →
        ∃ r, tr[k + 1]? = some (TraceEntry.tool_result i n r) := by
  intro tr h
  induction h with
  | nil =>
      intro k i n a hk
      simp at hk
  | llm tr' i0 fr _ ih =>
      intro k i n a hk
      rw [List.getElem?_append] at hk
      by_cases hlt : k < tr'.length
      · rw [if_pos hlt] at hk
        obtain ⟨r, hr⟩ := ih k i n a hk
        have hk1 : k + 1 < tr'.length := (List.getElem?_eq_some.mp hr).1
        exact ⟨r, by rw [List.getElem?_append, if_pos hk1]; exact hr⟩
      · rw [if_neg hlt] at hk
        rcases hd : k - tr'.length with _ | d
        · rw [hd] at hk
          simp at hk
        · rw [hd] at hk
          simp at hk
  | pair tr' i0 n0 a0 r0 _ ih =>
      intro k i n a hk
      rw [List.getElem?_append] at hk
      by_cases hlt : k < tr'.length
      · rw [if_pos hlt] at hk
        obtain ⟨r, hr⟩ := ih k i n a hk
        have hk1 : k + 1 < tr'.length := (List.getElem?_eq_some.mp hr).1
        exact ⟨r, by rw [List.getElem?_append, if_pos hk1]; exact hr⟩
      · rw [if_neg hlt] at hk
        rcases hd : k - tr'.length with _ | d
        · rw [hd] at hk
          simp only [List.getElem?_cons_zero, Option.some.injEq] at hk
          obtain ⟨hi, hn, _⟩ := TraceEntry.tool_call.inj hk
          refine ⟨r0, ?_⟩
          rw [List.getElem?_append, if_neg (by omega)]
          have hone : k + 1 - tr'.length = 1 := by omega
          rw [hone, hi, hn]
          simp
        · rw [hd] at hk
          rcases d with _ | d'
          · simp at hk
          · simp at hk
  | err tr' i0 e0 _ ih =>
      intro k i n a hk
      rw [List.getElem?_append] at hk
      by_cases hlt : k < tr'.length
      · rw [if_pos hlt] at hk
        obtain ⟨r, hr⟩ := ih k i n a hk
        have hk1 : k + 1 < tr'.length := (List.getElem?_eq_some.mp hr).1
        exact ⟨r, by rw [List.getElem?_append, if_pos hk1]; exact hr⟩
      · rw [if_neg hlt] at hk
        rcases hd : k - tr'.length with _ | d
        · rw [hd] at hk
          simp at hk
        · rw [hd] at hk
          simp at hk

/-- In a block-structured trace every tool_result entry is immediately
preceded by the tool_call entry it answers, with the same iteration
and tool. -/
theorem blocks_pair_bwd :
    ∀ (tr : List TraceEntry), TraceBlocks tr →
      ∀ (k i : Nat) (n : String) (r : ToolVal),
        tr[k]? = some (TraceEntry.tool_result i n r) →
        ∃ (a : String) (k' : Nat), k = k' + 1 ∧
          tr[k']? = some (TraceEntry.tool_call i n a) := by
  intro tr h
  induction h with
  | nil =>
      intro k i n r hk
      simp at hk
  | llm tr' i0 fr _ ih =>
      intro k i n r hk
      rw [List.getElem?_append] at hk
      by_cases hlt : k < tr'.length
      · rw [if_pos hlt] at hk
        obtain ⟨a, k', hke, hk'⟩ := ih k i n r hk
        have hlt' : k' < tr'.length := by omega
        exact ⟨a, k', hke, by rw [List.getElem?_append, if_pos hlt']; exact hk'⟩
      · rw [if_neg hlt] at hk
        rcases hd : k - tr'.length with _ | d
        · rw [hd] at hk
          simp at hk
        · rw [hd] at hk
          simp at hk
  | pair tr' i0 n0 a0 r0 _ ih =>
      intro k i n r hk
      rw [List.getElem?_append] at hk
      by_cases hlt : k < tr'.length
      · rw [if_pos hlt] at hk
        obtain ⟨a, k', hke, hk'⟩ := ih k i n r hk
        have hlt' : k' < tr'.length := by omega
        exact ⟨a, k', hke, by rw [List.getElem?_append, if_pos hlt']; exact hk'⟩
      · rw [if_neg hlt] at hk
        rcases hd : k - tr'.length with _ | d
        · rw [hd] at hk
          simp at hk
        · rw [hd] at hk
          rcases d with _ | d'
          · simp only [List.getElem?_cons_succ, List.getElem?_cons_zero,
              Option.some.injEq] at hk
            obtain ⟨hi, hn, _⟩ := TraceEntry.tool_result.inj hk
            refine ⟨a0, tr'.length, by omega, ?_⟩
            rw [List.getElem?_append, if_neg (by omega)]
            rw [Nat.sub_self, hi, hn]
            simp
          · simp at hk
  | err tr' i0 e0 _ ih =>
      intro k i n r hk
      rw [List.getElem?_append] at hk
      by_cases hlt : k < tr'.length
      · rw [if_pos hlt] at hk
        obtain ⟨a, k', hke, hk'⟩ := ih k i n r hk
        have hlt' : k' < tr'.length := by omega
        exact ⟨a, k', hke, by rw [List.getElem?_append, if_pos hlt']; exact hk'⟩
      · rw [if_neg hlt] at hk
        rcases hd : k - tr'.length with _ | d
        · rw [hd] at hk
          simp at hk
        · rw [hd] at hk
          simp at hk

/-- The most recent window of a log: its last n entries (all of them
when it is shorter than n). -/
def lastN {α : Type} (n : Nat) (l : List α) : List α :=
  l.drop (l.length - n)

/-- Window extraction is idempotent across later appends: keeping the
last n entries before appending more does not change which entries the
final window holds. -/
theorem lastN_append {α : Type} (n : Nat) (xs ys : List α) :
    lastN n (lastN n xs ++ ys) = lastN n (xs ++ ys) := by
  unfold lastN
  by_cases h : xs.length ≤ n
  · have h0 : xs.length - n = 0 := by omega
    rw [h0, List.drop_zero]
  · push_neg at h
    have hlen : (xs.drop (xs.length - n)).length = n := by
      rw [List.length_drop]; omega
    rw [List.length_append, List.length_append, hlen]
    by_cases hy : ys.length ≤ n
    · have ha : n + ys.length - n = ys.length := by omega
      rw [ha, List.drop_append_of_le_length (by omega : ys.length ≤ (xs.drop (xs.length - n)).length)]
      rw [List.drop_drop]
      have hb : xs.length + ys.length - n ≤ xs.length := by omega
      rw [List.drop_append_of_le_length hb]
      have hc : xs.length - n + ys.length = xs.length + ys.length - n := by omega
      rw [hc]
    · push_neg at hy
      have ha : n + ys.length - n = ys.length := by omega
      rw [ha]
      have h2 : ys.length = (List.drop (xs.length - n) xs).length + (ys.length - n) := by
        rw [hlen]; omega
      nth_rewrite 1 [h2]
      rw [List.drop_append]
      have hb : xs.length + ys.length - n = xs.length + (ys.length - n) := by omega
      rw [hb, List.drop_append]

/-- The window of a list no longer than n is the whole list. -/
theorem lastN_of_le {α : Type} (n : Nat) (l : List α) (h : l.length ≤ n) :
    lastN n l = l := by
  unfold lastN
  have h0 : l.length - n = 0 := by omega
  rw [h0, List.drop_zero]

/-- Length of the window: the window never holds more than n
entries. -/
theorem lastN_length_le {α : Type} (n : Nat) (l : List α) :
    (lastN n l).length ≤ n := by
  unfold lastN
  rw [List.length_drop]
  omega

/-- With a positive bound, one append equals appending and then
keeping the most recent window. -/
theorem add_message_eq_lastN (m : AgentMemory) (r : String) (c : Option String)
    (h : 1 ≤ m.max_messages) :
    (m.add_message r c).messages = lastN m.max_messages (m.messages ++ [⟨r, c⟩]) := by
  simp only [AgentMemory.add_message, pySliceLast, lastN]
  have hne : ¬ m.max_messages = 0 := by omega
  rw [if_neg hne]
  by_cases hlen : (m.messages ++ [(⟨r, c⟩ : MemMessage)]).length > m.max_messages
  · rw [if_pos hlen]
  · rw [if_neg hlen]
    have h0 : (m.messages ++ [(⟨r, c⟩ : MemMessage)]).length - m.max_messages = 0 := by omega
    rw [h0, List.drop_zero]

/-- add_message keeps the configured bound. -/
theorem add_message_max (m : AgentMemory) (r : String) (c : Option String) :
    (m.add_message r c).max_messages = m.max_messages := by
  simp only [AgentMemory.add_message]
  split <;> rfl

/-- A whole sequence of AgentMemory.add_message calls, oldest first. -/
def addAll (m : AgentMemory) (l : List (String × Option String)) : AgentMemory :=
  l.foldl (fun acc p => acc.add_message p.1 p.2) m

/-- The entry a pair of role and content denotes. -/
def toMem (p : String × Option String) : MemMessage :=
  ⟨p.1, p.2⟩

/-- addAll keeps the configured bound. -/
theorem addAll_max (l : List (String × Option String)) :
    ∀ (m : AgentMemory), (addAll m l).max_messages = m.max_messages := by
  induction l with
  | nil => intro m; rfl
  | cons p rest ih =>
      intro m
      show (addAll (m.add_message p.1 p.2) rest).max_messages = m.max_messages
      rw [ih, add_message_max]

/-- With a positive bound and a starting log within the bound, any
sequence of appends leaves exactly the most recent window of the full
append history, in insertion order. -/
theorem addAll_messages (l : List (String × Option String)) :
    ∀ (m : AgentMemory), 1 ≤ m.max_messages → m.messages.length ≤ m.max_messages →
      (addAll m l).messages = lastN m.max_messages (m.messages ++ l.map toMem) := by
  induction l with
  | nil =>
      intro m h1 h2
      show m.messages = lastN m.max_messages (m.messages ++ [])
      rw [List.append_nil, lastN_of_le _ _ h2]
  | cons p rest ih =>
      intro m h1 h2
      show (addAll (m.add_message p.1 p.2) rest).messages = _
      have hmax : (m.add_message p.1 p.2).max_messages = m.max_messages :=
        add_message_max m p.1 p.2
      have h1' : 1 ≤ (m.add_message p.1 p.2).max_messages := by rw [hmax]; exact h1
      have hmsgs : (m.add_message p.1 p.2).messages =
          lastN m.max_messages (m.messages ++ [⟨p.1, p.2⟩]) :=
        add_message_eq_lastN m p.1 p.2 h1
      have h2' : (m.add_message p.1 p.2).messages.length ≤
          (m.add_message p.1 p.2).max_messages := by
        rw [hmax, hmsgs]; exact lastN_length_le _ _
      have hrec := ih (m.add_message p.1 p.2) h1' h2'
      rw [hmax, hmsgs] at hrec
      rw [hrec, lastN_append]
      have hm : (⟨p.1, p.2⟩ : MemMessage) = toMem p := rfl
      rw [hm, List.append_assoc]
      rfl

/-- Dropping the head does not change the last element of a list that
stays nonempty. -/
theorem getLast?_cons_of_ne_nil {α : Type} (a : α) (l : List α) (h : l ≠ []) :
    (a :: l).getLast? = l.getLast? := by
  cases l with
  | nil => exact absurd rfl h
  | cons x xs => exact List.getLast?_cons_cons

/-- With a positive bound, the entry just appended is the last entry
of the log: trimming evicts from the front only. -/
theorem add_message_getLast (m : AgentMemory) (r : String) (c : Option String)
    (h : 1 ≤ m.max_messages) :
    (m.add_message r c).messages.getLast? = some ⟨r, c⟩ := by
  rw [add_message_eq_lastN m r c h]
  unfold lastN
  have hle : (m.messages ++ [(⟨r, c⟩ : MemMessage)]).length - m.max_messages ≤
      m.messages.length := by
    rw [List.length_append]
    simp only [List.length_singleton]
    omega
  rw [List.drop_append_of_le_length hle, List.getLast?_concat]

/-- With a positive bound, the log after an append is nonempty. -/
theorem add_message_ne_nil (m : AgentMemory) (r : String) (c : Option String)
    (h : 1 ≤ m.max_messages) :
    (m.add_message r c).messages ≠ [] := by
  intro hnil
  have := add_message_getLast m r c h
  rw [hnil] at this
  simp at this

/-- Appending below capacity grows the log by exactly one entry. -/
theorem add_message_length_succ (m : AgentMemory) (r : String) (c : Option String)
    (h : m.messages.length < m.max_messages) :
    (m.add_message r c).messages.length = m.messages.length + 1 := by
  simp only [AgentMemory.add_message]
  rw [if_neg (by rw [List.length_append]; simp only [List.length_singleton]; omega)]
  rw [List.length_append]
  simp

/-- With a strictly advancing step (overlap below chunk size), the
chunking loop finishes once the fuel covers the remaining distance to
the end of the text. -/
theorem chunkLoop_isSome (text : List Char) (chunk_size overlap : Nat)
    (h2 : overlap < chunk_size) :
    ∀ (fuel : Nat) (start : Int) (chunks : List (List Char)),
      (text.length : Int) ≤ start + fuel →
      (chunkLoop text chunk_size overlap fuel start chunks).isSome := by
  intro fuel
  induction fuel with
  | zero =>
      intro start chunks hle
      rw [chunkLoop, if_neg (by omega)]
      rfl
  | succ fuel ih =>
      intro start chunks hle
      rw [chunkLoop]
      by_cases hlt : start < (text.length : Int)
      · rw [if_pos hlt]
        apply ih
        push_cast at hle ⊢
        omega
      · rw [if_neg hlt]
        rfl

/-- With overlap at or above chunk size, the start boundary never
advances past a position strictly inside the text, so no amount of
fuel finishes the loop. -/
theorem chunkLoop_none (text : List Char) (chunk_size overlap : Nat)
    (h : chunk_size ≤ overlap) :
    ∀ (fuel : Nat) (start : Int) (chunks : List (List Char)),
      start < (text.length : Int) →
      chunkLoop text chunk_size overlap fuel start chunks = none := by
  intro fuel
  induction fuel with
  | zero =>
      intro start chunks hlt
      rw [chunkLoop, if_pos hlt]
  | succ fuel ih =>
      intro start chunks hlt
      rw [chunkLoop, if_pos hlt]
      apply ih
      omega

/-!
Claim theorems.  Each theorem settles one claim of the specification
against the embedded code.
-/

/-- C1: evaluation of a run whose adapter invocation raises.  The loop
does record the error trace entry and does terminate at once on the
failure path, but the dictionary surfaced to the caller carries
error = max_iterations_reached and the apology answer: the provider
error reaches the caller only inside the trace, and the result is
exactly one marked max_iterations_reached, contradicting the claim. -/
theorem C1_adapter_failure_eval :
    (calcAgent.think adapterFailing "task").1 = Outcome.FAILED ∧
    (calcAgent.think adapterFailing "task").2.1.execution_trace =
      [TraceEntry.error 1 "boom"] ∧
    (calcAgent.think adapterFailing "task").2.1.iterations = 1 ∧
    (calcAgent.think adapterFailing "task").2.1.error = some "max_iterations_reached" ∧
    (calcAgent.think adapterFailing "task").2.1.answer = some agentApology := by
  refine ⟨rfl, rfl, rfl, rfl, rfl⟩

/-- The agent of the C2 counterexample: the iteration budget is
configured to 0. -/
def zeroIterAgent : Agent :=
  { calcAgent with max_iterations := 0 }

/-- C2 counterexample: with max_iterations configured to 0 the loop
body never runs and the result reports iterations = 0, refuting the
unconditional lower bound iterations ≥ 1. -/
theorem C2_counterexample :
    ¬ 1 ≤ (zeroIterAgent.think adapterScenarioB "task").2.1.iterations := by
  decide

/-- C2 (amended): for every run of an agent whose configured
max_iterations is at least 1, the reported iteration count satisfies
1 ≤ iterations ≤ max_iterations. -/
theorem C2_iterations_bounds (ag : Agent) (adapter : Adapter) (input : String)
    (h : 1 ≤ ag.max_iterations) :
    1 ≤ (ag.think adapter input).2.1.iterations ∧
    (ag.think adapter input).2.1.iterations ≤ ag.max_iterations := by
  unfold Agent.think
  have hb := thinkLoop_iter_bounds ag.tools adapter ag.max_iterations 0
    (ag.initMessages input) [] (ag.memory.add_message "user" (some input))
  exact ⟨hb.2.2 h, by have := hb.2.1; omega⟩

/-- Witness for C2: the bounds evaluated on the scenario B run. -/
theorem C2_witness :
    1 ≤ (calcAgent.think adapterScenarioB "task").2.1.iterations ∧
    (calcAgent.think adapterScenarioB "task").2.1.iterations ≤ calcAgent.max_iterations :=
  C2_iterations_bounds calcAgent adapterScenarioB "task" (by decide)

/-- C5 counterexample: with the maximum entry count configured to 0,
a single append leaves one entry in the log because the trimming
slice lst[-0:] keeps the whole list, so the log exceeds its
maximum. -/
theorem C5_counterexample :
    ¬ ((AgentMemory.mk [] 0).add_message "user" (some "hi")).messages.length ≤
      (AgentMemory.mk [] 0).max_messages := by
  decide

/-- C5 (amended): for every positive configured maximum and every
sequence of appends starting from a log within the bound, the log
never exceeds the maximum, and it always equals the most recent
window of the full append history in insertion order, so eviction
removes the oldest entries first. -/
theorem C5_memory_window (maxm : Nat) (init : List MemMessage)
    (l : List (String × Option String)) (h1 : 1 ≤ maxm) (h2 : init.length ≤ maxm) :
    (addAll ⟨init, maxm⟩ l).messages.length ≤ maxm ∧
    (addAll ⟨init, maxm⟩ l).messages = lastN maxm (init ++ l.map toMem) := by
  have hm := addAll_messages l ⟨init, maxm⟩ h1 h2
  exact ⟨by rw [hm]; exact lastN_length_le _ _, hm⟩

/-- Witness for C5: three appends into a log bounded by 2 keep the
two most recent entries. -/
theorem C5_witness :
    (addAll ⟨[], 2⟩ [("user", some "a"), ("assistant", some "b"),
        ("user", some "c")]).messages.length ≤ 2 ∧
    (addAll ⟨[], 2⟩ [("user", some "a"), ("assistant", some "b"),
        ("user", some "c")]).messages =
      lastN 2 ([] ++ [("user", some "a"), ("assistant", some "b"),
        ("user", some "c")].map toMem) :=
  C5_memory_window 2 [] [("user", some "a"), ("assistant", some "b"), ("user", some "c")]
    (by decide) (by decide)

/-- C8: scenario B.  The adapter requests calculate(2+2) on iteration
1 and answers on iteration 2; the trace is exactly one model call,
the tool pair, and another model call, and the run reports two
iterations. -/
theorem C8_scenarioB :
    (calcAgent.think adapterScenarioB "What is 2+2?").2.1.execution_trace =
      [TraceEntry.llm_call 1 "tool_calls",
       TraceEntry.tool_call 1 "calculate" "2+2",
       TraceEntry.tool_result 1 "calculate" (ToolVal.ok "4"),
       TraceEntry.llm_call 2 "stop"] ∧
    (calcAgent.think adapterScenarioB "What is 2+2?").2.1.iterations = 2 := by
  refine ⟨rfl, rfl⟩

/-- C3: tool failures are contained.  A capability that raises is
caught by Tool.execute and turned into the structured error value; a
name absent from the registry yields the structured tool-not-found
error; the dispatch step records the invocation result in the
tool_result trace entry and feeds it back into the working message
sequence as ordinary tool output; a tool-request response makes the
loop continue with the next iteration rather than terminate; and a
run can end FAILED only because some adapter invocation raised, never
because of a tool failure. -/
theorem C3_tool_failure_contained :
    (∀ (t : Tool) (args e : String), t.function args = Except.error e →
        t.execute args = ToolVal.err e) ∧
    (∀ (tools : List Tool) (name args : String), toolLookup tools name = none →
        invokeTool tools name args = ToolVal.err ("Tool " ++ name ++ " not found")) ∧
    (∀ (tools : List Tool) (i : Nat) (tc : ToolCallReq) (rest : List ToolCallReq)
        (msgs : List WorkMsg) (tr : List TraceEntry),
        dispatchCalls tools i (tc :: rest) msgs tr =
          dispatchCalls tools i rest
            (msgs ++ [WorkMsg.assistantToolCall tc,
                      WorkMsg.toolMsg tc.id (invokeTool tools tc.name tc.arguments)])
            (tr ++ [TraceEntry.tool_call i tc.name tc.arguments,
                    TraceEntry.tool_result i tc.name (invokeTool tools tc.name tc.arguments)])) ∧
    (∀ (tools : List Tool) (adapter : Adapter) (fuel iteration : Nat) (msgs : List WorkMsg)
        (tr : List TraceEntry) (mem : AgentMemory) (resp : ModelResponse),
        adapter msgs = Except.ok resp →
        resp.choice.finish_reason = "tool_calls" →
        resp.choice.message.tool_calls ≠ [] →
        thinkLoop tools adapter (fuel + 1) iteration msgs tr mem =
          thinkLoop tools adapter fuel (iteration + 1)
            (dispatchCalls tools (iteration + 1) resp.choice.message.tool_calls msgs
              (tr ++ [TraceEntry.llm_call (iteration + 1) resp.choice.finish_reason])).1
            (dispatchCalls tools (iteration + 1) resp.choice.message.tool_calls msgs
              (tr ++ [TraceEntry.llm_call (iteration + 1) resp.choice.finish_reason])).2
            mem) ∧
    (∀ (tools : List Tool) (adapter : Adapter) (fuel iteration : Nat) (msgs : List WorkMsg)
        (tr : List TraceEntry) (mem : AgentMemory),
        (thinkLoop tools adapter fuel iteration msgs tr mem).1 = Outcome.FAILED →
        ∃ m e, adapter m = Except.error e) := by
  refine ⟨?_, ?_, ?_, ?_, ?_⟩
  · intro t args e h
    simp [Tool.execute, h]
  · intro tools name args h
    simp [invokeTool, h]
  · intro tools i tc rest msgs tr
    rfl
  · intro tools adapter fuel iteration msgs tr mem resp hA hfr hne
    simp only [thinkLoop, hA]
    rw [if_pos ⟨hfr, hne⟩]
  · intro tools adapter fuel iteration msgs tr mem h
    exact thinkLoop_failed tools adapter fuel iteration msgs tr mem h

/-- A tool whose capability always raises. -/
def failTool : Tool :=
  { name := "failing", description := "always raises", parameters := ""
    function := fun _ => Except.error "boom" }

/-- An empty memory with the default bound, for concrete loop runs. -/
def memEx : AgentMemory :=
  { messages := [], max_messages := 50 }

/-- Witness for C3: each containment fact evaluated at a concrete
input. -/
theorem C3_witness :
    failTool.execute "x" = ToolVal.err "boom" ∧
    invokeTool [] "nope" "y" = ToolVal.err ("Tool " ++ "nope" ++ " not found") ∧
    dispatchCalls [] 1 [⟨"id1", "nope", "y"⟩] [] [] =
      dispatchCalls [] 1 []
        ([] ++ [WorkMsg.assistantToolCall ⟨"id1", "nope", "y"⟩,
                WorkMsg.toolMsg "id1" (invokeTool [] "nope" "y")])
        ([] ++ [TraceEntry.tool_call 1 "nope" "y",
                TraceEntry.tool_result 1 "nope" (invokeTool [] "nope" "y")]) ∧
    thinkLoop [] adapterAlwaysTool (0 + 1) 0 [] [] memEx =
      thinkLoop [] adapterAlwaysTool 0 (0 + 1)
        (dispatchCalls [] (0 + 1) toolCallPayload.choice.message.tool_calls []
          ([] ++ [TraceEntry.llm_call (0 + 1) toolCallPayload.choice.finish_reason])).1
        (dispatchCalls [] (0 + 1) toolCallPayload.choice.message.tool_calls []
          ([] ++ [TraceEntry.llm_call (0 + 1) toolCallPayload.choice.finish_reason])).2
        memEx ∧
    (∃ m e, adapterFailing m = Except.error e) := by
  refine ⟨C3_tool_failure_contained.1 failTool "x" "boom" rfl,
          C3_tool_failure_contained.2.1 [] "nope" "y" rfl,
          C3_tool_failure_contained.2.2.1 [] 1 ⟨"id1", "nope", "y"⟩ [] [] [],
          C3_tool_failure_contained.2.2.2.1 [] adapterAlwaysTool 0 0 [] [] memEx
            toolCallPayload rfl rfl (by decide),
          C3_tool_failure_contained.2.2.2.2 [] adapterFailing 1 0 [] [] memEx rfl⟩

/-- C4: pairing invariant.  In the trace of every run, a tool_call
entry is immediately followed by a tool_result entry with the same
iteration and tool name, and every tool_result entry is immediately
preceded by the tool_call entry it answers. -/
theorem C4_pairing (ag : Agent) (adapter : Adapter) (input : String) :
    (∀ (k i : Nat) (n a : String),
      (ag.think adapter input).2.1.execution_trace[k]? =
          some (TraceEntry.tool_call i n a) →
      ∃ r, (ag.think adapter input).2.1.execution_trace[k + 1]? =
          some (TraceEntry.tool_result i n r)) ∧
    (∀ (k i : Nat) (n : String) (r : ToolVal),
      (ag.think adapter input).2.1.execution_trace[k]? =
          some (TraceEntry.tool_result i n r) →
      ∃ (a : String) (k' : Nat), k = k' + 1 ∧
        (ag.think adapter input).2.1.execution_trace[k']? =
          some (TraceEntry.tool_call i n a)) := by
  have hb := thinkLoop_blocks ag.tools adapter ag.max_iterations 0
    (ag.initMessages input) [] (ag.memory.add_message "user" (some input))
    TraceBlocks.nil
  exact ⟨blocks_pair_fwd _ hb, blocks_pair_bwd _ hb⟩

/-- Witness for C4: in the scenario B trace the tool_call at index 1
is answered at index 2, and the tool_result at index 2 is preceded by
its tool_call. -/
theorem C4_witness :
    (∃ r, (calcAgent.think adapterScenarioB "calc").2.1.execution_trace[1 + 1]? =
        some (TraceEntry.tool_result 1 "calculate" r)) ∧
    (∃ (a : String) (k' : Nat), 2 = k' + 1 ∧
      (calcAgent.think adapterScenarioB "calc").2.1.execution_trace[k']? =
        some (TraceEntry.tool_call 1 "calculate" a)) :=
  ⟨(C4_pairing calcAgent adapterScenarioB "calc").1 1 1 "calculate" "2+2" (by decide),
   (C4_pairing calcAgent adapterScenarioB "calc").2 2 1 "calculate" (ToolVal.ok "4")
     (by decide)⟩

/-- C6: persistent-memory frame of a run.  A DONE run leaves memory
equal to the user-appended memory plus exactly one assistant entry
carrying the returned answer; an EXHAUSTED or FAILED run leaves it
equal to the user-appended memory, with no assistant entry. -/
theorem C6_memory_frame (ag : Agent) (adapter : Adapter) (input : String) :
    (ag.think adapter input).2.2 =
      if (ag.think adapter input).1 = Outcome.DONE then
        (ag.memory.add_message "user" (some input)).add_message "assistant"
          (ag.think adapter input).2.1.answer
      else
        ag.memory.add_message "user" (some input) := by
  unfold Agent.think
  have hm := thinkLoop_memory ag.tools adapter ag.max_iterations 0
    (ag.initMessages input) [] (ag.memory.add_message "user" (some input))
  by_cases h : (thinkLoop ag.tools adapter ag.max_iterations 0
      (ag.initMessages input) [] (ag.memory.add_message "user" (some input))).1 =
      Outcome.DONE
  · rw [if_pos h]
    exact hm.1 h
  · rw [if_neg h]
    exact hm.2 h

/-- The agent of scenario C: iteration budget 1. -/
def scenCAgent : Agent :=
  { calcAgent with max_iterations := 1 }

/-- C7: a run that ends EXHAUSTED returns the error marker
max_iterations_reached, the apology answer, no usage record, and an
iteration count equal to the configured maximum; in particular the
scenario C run (budget 1, adapter always requesting a tool) ends
EXHAUSTED with one iteration. -/
theorem C7_exhausted (ag : Agent) (adapter : Adapter) (input : String)
    (h : (ag.think adapter input).1 = Outcome.EXHAUSTED) :
    ((ag.think adapter input).2.1.error = some "max_iterations_reached" ∧
     (ag.think adapter input).2.1.answer = some agentApology ∧
     (ag.think adapter input).2.1.iterations = ag.max_iterations ∧
     (ag.think adapter input).2.1.usage = none) ∧
    ((scenCAgent.think adapterAlwaysTool "loop").1 = Outcome.EXHAUSTED ∧
     (scenCAgent.think adapterAlwaysTool "loop").2.1.iterations = 1 ∧
     (scenCAgent.think adapterAlwaysTool "loop").2.1.error =
       some "max_iterations_reached") := by
  constructor
  · unfold Agent.think at h ⊢
    have he := thinkLoop_exhausted ag.tools adapter ag.max_iterations 0
      (ag.initMessages input) [] (ag.memory.add_message "user" (some input)) h
    refine ⟨he.1, he.2.1, ?_, he.2.2.2⟩
    have := he.2.2.1
    omega
  · exact ⟨rfl, rfl, rfl⟩

/-- Witness for C7: the theorem applied to the scenario C run
itself. -/
theorem C7_witness :
    ((scenCAgent.think adapterAlwaysTool "loop").2.1.error =
        some "max_iterations_reached" ∧
     (scenCAgent.think adapterAlwaysTool "loop").2.1.answer = some agentApology ∧
     (scenCAgent.think adapterAlwaysTool "loop").2.1.iterations =
        scenCAgent.max_iterations ∧
     (scenCAgent.think adapterAlwaysTool "loop").2.1.usage = none) ∧
    ((scenCAgent.think adapterAlwaysTool "loop").1 = Outcome.EXHAUSTED ∧
     (scenCAgent.think adapterAlwaysTool "loop").2.1.iterations = 1 ∧
     (scenCAgent.think adapterAlwaysTool "loop").2.1.error =
       some "max_iterations_reached") :=
  C7_exhausted scenCAgent adapterAlwaysTool "loop" (by decide)

/-- C9: chunk_text terminates whenever the configured overlap is
smaller than the chunk size (fuel equal to the text length always
suffices, since every step advances the start boundary by at least
one); with overlap at or above the chunk size and a text longer than
one chunk, the boundary never advances past the end and no amount of
fuel finishes the loop. -/
theorem C9_chunking (text : List Char) (chunk_size overlap : Nat) :
    (1 ≤ chunk_size → overlap < chunk_size →
      (chunk_text text chunk_size overlap text.length).isSome) ∧
    (chunk_size ≤ overlap → chunk_size < text.length →
      ∀ fuel, chunk_text text chunk_size overlap fuel = none) := by
  constructor
  · intro _h1 h2
    unfold chunk_text
    apply chunkLoop_isSome text chunk_size overlap h2
    omega
  · intro h1 h2 fuel
    unfold chunk_text
    apply chunkLoop_none text chunk_size overlap h1
    omega

/-- Witness for C9: on the text hello world, chunk size 4 and overlap
1 terminate; chunk size 2 with overlap 2 never finishes on hello. -/
theorem C9_witness :
    (chunk_text "hello world".toList 4 1 "hello world".toList.length).isSome ∧
    chunk_text "hello".toList 2 2 5 = none :=
  ⟨(C9_chunking "hello world".toList 4 1).1 (by decide) (by decide),
   (C9_chunking "hello".toList 2 2).2 (by decide) (by decide) 5⟩

/-- C10: every run appends the task as a user entry to persistent
memory before the first adapter call: the user entry is the last
element of the working message sequence handed to the first adapter
invocation; runs that produce no answer (EXHAUSTED or FAILED) still
leave memory equal to the user-appended memory; and below capacity
that append grows the log by one entry. -/
theorem C10_user_append (ag : Agent) (adapter : Adapter) (input : String) :
    (1 ≤ ag.memory.max_messages →
      (ag.initMessages input).getLast? = some (WorkMsg.chat "user" (some input))) ∧
    ((ag.think adapter input).1 ≠ Outcome.DONE →
      (ag.think adapter input).2.2 = ag.memory.add_message "user" (some input)) ∧
    (ag.memory.messages.length < ag.memory.max_messages →
      (ag.memory.add_message "user" (some input)).messages.length =
        ag.memory.messages.length + 1) := by
  refine ⟨?_, ?_, ?_⟩
  · intro h
    unfold Agent.initMessages
    simp only [AgentMemory.get_messages]
    have hu := add_message_getLast ag.memory "user" (some input) h
    have hne := add_message_ne_nil ag.memory "user" (some input) h
    have hmapne : (ag.memory.add_message "user" (some input)).messages.map
        (fun m => WorkMsg.chat m.role m.content) ≠ [] := by
      intro hnil
      exact hne (List.map_eq_nil_iff.mp hnil)
    rw [getLast?_cons_of_ne_nil _ _ hmapne, List.getLast?_map, hu]
    rfl
  · intro h
    exact (thinkLoop_memory ag.tools adapter ag.max_iterations 0
      (ag.initMessages input) [] (ag.memory.add_message "user" (some input))).2 h
  · intro h
    exact add_message_length_succ ag.memory "user" (some input) h

/-- Witness for C10: the three facts evaluated on a failing run of the
calculator agent. -/
theorem C10_witness :
    (calcAgent.initMessages "task").getLast? =
      some (WorkMsg.chat "user" (some "task")) ∧
    (calcAgent.think adapterFailing "task").2.2 =
      calcAgent.memory.add_message "user" (some "task") ∧
    (calcAgent.memory.add_message "user" (some "task")).messages.length =
      calcAgent.memory.messages.length + 1 :=
  ⟨(C10_user_append calcAgent adapterFailing "task").1 (by decide),
   (C10_user_append calcAgent adapterFailing "task").2.1 (by decide),
   (C10_user_append calcAgent adapterFailing "task").2.2 (by decide)⟩
